import Mathlib

/-!
Verification development for the levanter-midi text-data pipeline
(`src/levanter/data/text.py`).

We shallowly embed the pure core of the pipeline:

* `BatchTokenizer.__call__` and `BatchTokenizer._merge_split_encodings`
  (quote normalization, the sentence-terminator filter, regex sentence
  splitting, word counting, EOS appending, and the fragment re-merge with
  synthetic sentence-length boundary tokens);
* `concatenate_and_group_texts` and `_mask_overlap` (fixed-length windowing
  with optional stride/overlap label masking);
* `TokenSeqDataset.__iter__` (carry-over re-chunking of documents into
  fixed-length windows);
* the per-example PRNG-key plumbing of `CausalLmDataset.__iter__`.

Strings are modelled as `List Char`; token ids as `Nat`; window contents as
`List Int` (labels use the sentinel -100).  The externally supplied tokenizer
is a parameter `tok : List Char → List Nat` (HF tokenizers return Python
lists per field, which is the list branch of `_merge_split_encodings`).
Fallible code (Python `IndexError` from indexing an empty string/list,
numpy's `ValueError` from `np.concatenate([])`) is modelled with `Except`.
-/

deriving instance DecidableEq for Except

namespace LevText

/-- Python raw text record / sentence, modelled as a list of characters. -/
abbrev Str := List Char

/-- Python `str.isspace` characters for the ASCII range, as used by
`str.split()` and by the `\s` class of `re.split` (space, tab, newline,
carriage return, vertical tab, form feed). -/
def isPySpace (c : Char) : Bool :=
  c == ' ' || c == '\t' || c == '\n' || c == '\r' || c == Char.ofNat 11 || c == Char.ofNat 12

/-- Sentence terminator characters `".!?"` from `BatchTokenizer.__call__`. -/
def isTerm (c : Char) : Bool :=
  c == '.' || c == '!' || c == '?'

/-- Python `s.replace(ab, rs)` for a two-character pattern `a,b` replaced by
the two characters `r,s` (all six replacements in `BatchTokenizer.__call__`
have this shape).  Scans left to right, non-overlapping. -/
def pyReplace2 (a b r s : Char) : Str → Str
  | [] => []
  | [c] => [c]
  | c :: d :: rest =>
    if c == a && d == b then r :: s :: pyReplace2 a b r s rest
    else c :: pyReplace2 a b r s (d :: rest)

/-- The quote-ordering normalization at the top of `BatchTokenizer.__call__`:
`."` → `".` , `.'` → `'.` , `?"` → `"?` , `!"` → `"!` , `?'` → `'?` ,
`!'` → `'!`, applied in that order. -/
def normalizeQuotes (d : Str) : Str :=
  pyReplace2 '!' '\'' '\'' '!'
    (pyReplace2 '?' '\'' '\'' '?'
      (pyReplace2 '!' '"' '"' '!'
        (pyReplace2 '?' '"' '"' '?'
          (pyReplace2 '.' '\'' '\'' '.'
            (pyReplace2 '.' '"' '"' '.' d)))))

/-- Worker for `pySplitWs`; `acc` is the reversed current word. -/
def splitWsGo : Str → Str → List Str
  | [], acc => if acc.isEmpty then [] else [acc.reverse]
  | c :: rest, acc =>
    if isPySpace c then
      if acc.isEmpty then splitWsGo rest [] else acc.reverse :: splitWsGo rest []
    else splitWsGo rest (c :: acc)

/-- Python `s.split()` (no argument): split on runs of whitespace, dropping
empty words. -/
def pySplitWs (s : Str) : List Str := splitWsGo s []

/-- Worker for `reSplitSent`, embedding
`re.split(r'(?<=[.!?])\s+', d)`.  `acc` is the reversed current piece; the
lookbehind inspects the head of `acc` (the previously consumed character).
`skip` is true while consuming the maximal whitespace run of a match. -/
def reSplitGo : Str → Str → Bool → List Str
  | [], acc, _ => [acc.reverse]
  | c :: rest, acc, true =>
    if isPySpace c then reSplitGo rest acc true
    else reSplitGo rest (c :: acc) false
  | c :: rest, acc, false =>
    if isPySpace c && (match acc with | p :: _ => isTerm p | [] => false) then
      acc.reverse :: reSplitGo rest [] true
    else reSplitGo rest (c :: acc) false

/-- `re.split(r'(?<=[.!?])\s+', d)`: split at each maximal whitespace run
immediately preceded by a sentence terminator. -/
def reSplitSent (d : Str) : List Str := reSplitGo d [] false

/-- The sentence-terminator filter condition in `BatchTokenizer.__call__`:
`(d[-1] == "\n" and d[:-1].split()[-1][-1] not in ".!?") or (d.split()[-1][-1] not in ".!?")`.
Returns `.ok true` when the record is skipped, `.ok false` when kept and
`.error "IndexError"` when Python would raise (empty string indexed by
`d[-1]`, or an empty `split()` list indexed by `[-1]`). -/
def checkSkip (d : Str) : Except String Bool :=
  match d.getLast? with
  | none => .error "IndexError"
  | some c =>
    if c == '\n' then
      match (pySplitWs d.dropLast).getLast? with
      | none => .error "IndexError"
      | some w =>
        match w.getLast? with
        | none => .error "IndexError"
        | some wc =>
          if !isTerm wc then .ok true
          else
            match (pySplitWs d).getLast? with
            | none => .error "IndexError"
            | some w2 =>
              match w2.getLast? with
              | none => .error "IndexError"
              | some wc2 => .ok (!isTerm wc2)
    else
      match (pySplitWs d).getLast? with
      | none => .error "IndexError"
      | some w2 =>
        match w2.getLast? with
        | none => .error "IndexError"
        | some wc2 => .ok (!isTerm wc2)

/-- Whether the last whitespace-delimited word of `d` ends in a sentence
terminator; `false` when there is no word.  This is the condition the filter
in `BatchTokenizer.__call__` actually tests (on the quote-normalized
record). -/
def lastWordEndsTerm (d : Str) : Bool :=
  match (pySplitWs d).getLast? with
  | some w =>
    match w.getLast? with
    | some c => isTerm c
    | none => false
  | none => false

/-- The sentence post-processing in `BatchTokenizer.__call__`: a split
sentence that does not start with a (single-space) `" "` is re-prefixed with
one. -/
def addLeadingSpace (s : Str) : Str :=
  if s.head? = some ' ' then s else ' ' :: s

/-- The sentence list produced from one (already quote-normalized) record in
`BatchTokenizer.__call__`: regex-split, drop empty pieces, re-add the leading
space. -/
def sentencesOf (d : Str) : List Str :=
  ((reSplitSent d).filter (fun s => !s.isEmpty)).map addLeadingSpace

/-- Word count of a sentence: `len(s.split())`. -/
def wordCount (s : Str) : Nat := (pySplitWs s).length

/-- The fragment strings one kept record contributes to the flattened batch:
its sentences, plus the synthetic EOS-token sentence when EOS-append is
enabled.  Both additions are guarded by `if sentences:` in the source, so an
all-empty split contributes nothing. -/
def recordFrags (needEos : Bool) (eosTok : Str) (d : Str) : List Str :=
  if sentencesOf d = [] then []
  else sentencesOf d ++ (if needEos then [eosTok] else [])

/-- The word counts one kept record contributes (the synthetic EOS sentence
counts as one word). -/
def recordWcs (needEos : Bool) (d : Str) : List Nat :=
  if sentencesOf d = [] then []
  else (sentencesOf d).map wordCount ++ (if needEos then [1] else [])

/-- The `needs_merge` flags one kept record contributes: `False` for its
first fragment and `True` for every later one (including the EOS sentence). -/
def recordFlags (needEos : Bool) (eosTok : Str) (d : Str) : List Bool :=
  if sentencesOf d = [] then []
  else false :: List.replicate ((recordFrags needEos eosTok d).length - 1) true

/-- The record loop of `BatchTokenizer.__call__`: quote-normalize each
record, silently skip it when the terminator filter says so, and otherwise
append its fragments, merge flags and word counts to the flattened batch.
Propagates the `IndexError` of the filter check. -/
def batchTokenizerPrep (needEos : Bool) (eosTok : Str) :
    List Str → Except String (List Str × List Bool × List Nat)
  | [] => .ok ([], [], [])
  | d :: ds =>
    match checkSkip (normalizeQuotes d) with
    | .error e => .error e
    | .ok true => batchTokenizerPrep needEos eosTok ds
    | .ok false =>
      match batchTokenizerPrep needEos eosTok ds with
      | .error e => .error e
      | .ok (b, f, w) =>
        .ok (recordFrags needEos eosTok (normalizeQuotes d) ++ b,
             recordFlags needEos eosTok (normalizeQuotes d) ++ f,
             recordWcs needEos (normalizeQuotes d) ++ w)

/-- The per-fragment boundary-token step of the list branch of
`BatchTokenizer._merge_split_encodings`:
`if wc[i] < max_sentence_len and v[i][0] != eos_token_id: v[i] = [wc[i] + eos_token_id + 1] + v[i]`.
Python's short-circuit `and` indexes `v[i][0]` only when
`wc[i] < max_sentence_len`; that indexing raises on an empty fragment. -/
def tagFrag (eosId maxLen wcI : Nat) (vI : List Nat) : Except String (List Nat) :=
  if wcI < maxLen then
    match vI with
    | [] => .error "IndexError"
    | t :: ts => if t ≠ eosId then .ok ((wcI + eosId + 1) :: t :: ts) else .ok (t :: ts)
  else .ok vI

/-- Total form of `tagFrag` on nonempty fragments, used to state merge
results. -/
def tagged (eosId maxLen wcI : Nat) (vI : List Nat) : List Nat :=
  if wcI < maxLen ∧ vI.head? ≠ some eosId then (wcI + eosId + 1) :: vI else vI

/-- The loop of the `isinstance(v[0], list)` branch of
`BatchTokenizer._merge_split_encodings`: `vs` is `vs_to_merge`, `out` is
`v_out`.  On a `needs_merge[i] == False` entry the accumulated run is flushed
(guarded by `len(vs_to_merge) > 0`); at the end any remaining run is flushed
the same way. -/
def mergeListGo (eosId maxLen : Nat) :
    List (List Nat) → List Bool → List Nat → List (List Nat) → List (List Nat) →
    Except String (List (List Nat))
  | [], [], [], vs, out => .ok (if vs.isEmpty then out else out ++ [vs.flatten])
  | vI :: vr, fI :: fr, wI :: wr, vs, out =>
    let out' := if fI then out else (if vs.isEmpty then out else out ++ [vs.flatten])
    let vs' := if fI then vs else []
    match tagFrag eosId maxLen wI vI with
    | .error e => .error e
    | .ok frag => mergeListGo eosId maxLen vr fr wr (vs' ++ [frag]) out'
  | _, _, _, _, _ => .error "IndexError"

/-- The list branch of `BatchTokenizer._merge_split_encodings` for one field
(`input_ids`). -/
def mergeSplitList (v : List (List Nat)) (flags : List Bool) (wc : List Nat)
    (eosId maxLen : Nat) : Except String (List (List Nat)) :=
  mergeListGo eosId maxLen v flags wc [] []

/-- `np.concatenate` on a Python list of arrays: raises `ValueError` on an
empty list. -/
def npConcat : List (List Nat) → Except String (List Nat)
  | [] => .error "ValueError: need at least one array to concatenate"
  | ls => .ok ls.flatten

/-- The per-fragment step of the ndarray branch of
`BatchTokenizer._merge_split_encodings`.  Note that for a numpy array `v[i]`,
Python's `[sentence_len] + v[i]` is a broadcast *addition* of the scalar to
every element, not a prepend. -/
def tagFragArray (eosId maxLen wcI : Nat) (vI : List Nat) : Except String (List Nat) :=
  if wcI < maxLen then
    match vI with
    | [] => .error "IndexError"
    | t :: ts =>
      if t ≠ eosId then .ok ((t :: ts).map (· + (wcI + eosId + 1))) else .ok (t :: ts)
  else .ok vI

/-- The loop of the `isinstance(v[0], np.ndarray)` branch of
`BatchTokenizer._merge_split_encodings`.  Unlike the list branch, the flush
performed at a `needs_merge[i] == False` entry is *not* guarded by
`len(vs_to_merge) > 0`: it calls `np.concatenate(vs_to_merge)` directly. -/
def mergeArrayGo (eosId maxLen : Nat) :
    List (List Nat) → List Bool → List Nat → List (List Nat) → List (List Nat) →
    Except String (List (List Nat))
  | [], [], [], vs, out => .ok (if vs.isEmpty then out else out ++ [vs.flatten])
  | vI :: vr, fI :: fr, wI :: wr, vs, out =>
    if fI then
      match tagFragArray eosId maxLen wI vI with
      | .error e => .error e
      | .ok frag => mergeArrayGo eosId maxLen vr fr wr (vs ++ [frag]) out
    else
      match npConcat vs with
      | .error e => .error e
      | .ok merged =>
        match tagFragArray eosId maxLen wI vI with
        | .error e => .error e
        | .ok frag => mergeArrayGo eosId maxLen vr fr wr [frag] (out ++ [merged])
  | _, _, _, _, _ => .error "IndexError"

/-- The ndarray branch of `BatchTokenizer._merge_split_encodings` for one
field. -/
def mergeSplitArray (v : List (List Nat)) (flags : List Bool) (wc : List Nat)
    (eosId maxLen : Nat) : Except String (List (List Nat)) :=
  mergeArrayGo eosId maxLen v flags wc [] []

/-- `BatchTokenizer.__call__` for the single `input_ids` field of a tokenizer
`tok` returning Python lists: prepare the flattened sentence batch, tokenize
it in one call, and re-merge per record (the merge runs only when
`needs_merge` is nonempty, mirroring `if needs_merge:`). -/
def batchTokenizerCall (tok : Str → List Nat) (eosId maxLen : Nat)
    (needEos : Bool) (eosTok : Str) (records : List Str) :
    Except String (List (List Nat)) :=
  match batchTokenizerPrep needEos eosTok records with
  | .error e => .error e
  | .ok (batch, flags, wc) =>
    if flags.isEmpty then .ok (batch.map tok)
    else mergeSplitList (batch.map tok) flags wc eosId maxLen

/-- A window produced by `concatenate_and_group_texts` over an encoding whose
only field is `input_ids`: the sliced `input_ids`, and the `labels` field the
function adds when `mask_stride_overlap and stride != seq_len`. -/
structure Window where
  input_ids : List Int
  labels : Option (List Int)
deriving DecidableEq, Repr

/-- Python `stride or seq_len`: `None` and `0` are falsy. -/
def pyOrStride (strideOpt : Option Nat) (seqLen : Nat) : Nat :=
  match strideOpt with
  | none => seqLen
  | some 0 => seqLen
  | some s => s

/-- The `total_length` adjustment of `concatenate_and_group_texts`:
`if drop_remainder and total_length % stride != 0: total_length = ((total_length - seq_len + stride) // stride) * stride`.
Computed over `Int` with floor division, matching Python's `//`. -/
def cgtTotal (L seqLen stride : Nat) (dropRemainder : Bool) : Int :=
  if dropRemainder ∧ L % stride ≠ 0 then
    (((L : Int) - seqLen + stride).fdiv stride) * stride
  else (L : Int)

/-- Length of Python `range(0, stop, step)` for `step > 0` (`stop` may be a
negative Python int, in which case the range is empty). -/
def pyRangeCount (stop : Int) (step : Nat) : Nat :=
  if stop ≤ 0 then 0 else (stop.toNat + step - 1) / step

/-- The window start offsets of `concatenate_and_group_texts`:
`range(0, total_length - seq_len + stride, stride)`. -/
def cgtBegins (L seqLen stride : Nat) (dropRemainder : Bool) : List Nat :=
  (List.range (pyRangeCount (cgtTotal L seqLen stride dropRemainder - seqLen + stride) stride)).map
    (· * stride)

/-- `_mask_overlap(labels, target_len, stride, sentinel)`: overwrite the
first `target_len - stride` positions (clipped to the available length, as
both the list loop with its `i < len(labels)` guard and the numpy slice
assignment do) with the sentinel. -/
def maskOverlap (labels : List Int) (targetLen stride : Nat) (sentinel : Int) : List Int :=
  List.replicate (min (targetLen - stride) labels.length) sentinel ++
    labels.drop (targetLen - stride)

/-- One loop iteration of `concatenate_and_group_texts` at window start `b`:
slice every field; when `mask_stride_overlap and stride != seq_len`, add a
`labels` field (defaulted from `input_ids`), masked unless `begin == 0`. -/
def cgtWindow (tokens : List Int) (seqLen stride : Nat) (maskStrideOverlap : Bool)
    (b : Nat) : Window :=
  if maskStrideOverlap ∧ stride ≠ seqLen then
    { input_ids := (tokens.drop b).take seqLen,
      labels := some (if b ≠ 0 then
          maskOverlap ((tokens.drop b).take seqLen) seqLen stride (-100)
        else (tokens.drop b).take seqLen) }
  else { input_ids := (tokens.drop b).take seqLen, labels := none }

/-- `concatenate_and_group_texts` over an encoding whose single field is
`input_ids` with the given concatenated token stream. -/
def concatenateAndGroupTexts (tokens : List Int) (seqLen : Nat) (strideOpt : Option Nat)
    (dropRemainder maskStrideOverlap : Bool) : List Window :=
  (cgtBegins tokens.length seqLen (pyOrStride strideOpt seqLen) dropRemainder).map
    (cgtWindow tokens seqLen (pyOrStride strideOpt seqLen) maskStrideOverlap)

/-- The window loop body of `TokenSeqDataset.__iter__` over the window list
of one document: windows shorter than `seq_len` become the carry-over
`extra_tokens`, full windows are yielded (and reset the carry to `None`).
The source's `assert extra_tokens is None` on the short branch always holds
here because with `stride = seq_len` only the final window can be short. -/
def tokenSeqScan (seqLen : Nat) :
    List (List Int) → Option (List Int) → List (List Int) × Option (List Int)
  | [], extra => ([], extra)
  | w :: ws, _ =>
    if w.length < seqLen then tokenSeqScan seqLen ws (some w)
    else
      match tokenSeqScan seqLen ws none with
      | (ys, e) => (w :: ys, e)

/-- One document step of `TokenSeqDataset.__iter__`: stack the carry-over in
front of the document (`_stack_batch_encodings` followed by the concatenation
inside `concatenate_and_group_texts`), window it with
`stride = None, drop_remainder = False`, and scan the windows. -/
def tokenSeqStep (seqLen : Nat) (extra : Option (List Int)) (doc : List Int) :
    List (List Int) × Option (List Int) :=
  tokenSeqScan seqLen
    ((concatenateAndGroupTexts (match extra with | some e => e ++ doc | none => doc)
        seqLen none false true).map Window.input_ids)
    none

/-- `TokenSeqDataset.__iter__` over a stream of documents (each given as its
concatenated `input_ids`), yielding the emitted fixed-length windows; the
final carry-over is dropped when the document stream ends. -/
def tokenSeqIter (seqLen : Nat) (extra : Option (List Int)) :
    List (List Int) → List (List Int)
  | [] => []
  | doc :: docs =>
    (tokenSeqStep seqLen extra doc).1 ++
      tokenSeqIter seqLen (tokenSeqStep seqLen extra doc).2 docs

/-- The observable part of one `LmExample` built by
`CausalLmDataset.__iter__`: its tokens and the PRNG subkey used for the
forgetful-causal mask (`none` when `fcm_prob == 0`). -/
structure LmExampleM where
  tokens : List Int
  fcmKey : Option Nat
deriving DecidableEq, Repr

/-- The jitted `_create_lm_example(tokens, key)` closure of
`CausalLmDataset.__iter__`: when `fcm_prob > 0` it computes
`this_key, key = jax.random.split(key)` and draws the forgetful-causal mask
from `this_key`.  The rebinding of `key` is local to this function: the
caller's `key` is unchanged.  PRNG keys are modelled as `Nat` and
`jax.random.split` as an arbitrary function `split : Nat → Nat × Nat`. -/
def createLmExample (split : Nat → Nat × Nat) (fcmProb : ℚ) (tokens : List Int)
    (key : Nat) : LmExampleM :=
  if 0 < fcmProb then { tokens := tokens, fcmKey := some (split key).1 }
  else { tokens := tokens, fcmKey := none }

/-- The loop of `CausalLmDataset.__iter__`: `key = self.key` is bound once
before the loop and `_create_lm_example(tokens, key)` is invoked with that
same `key` for every element of the dataset (the loop never rebinds it). -/
def causalLmIter (split : Nat → Nat × Nat) (fcmProb : ℚ) (key : Nat) :
    List (List Int) → List LmExampleM
  | [] => []
  | t :: ts => createLmExample split fcmProb t key :: causalLmIter split fcmProb key ts

/-- `tagged` zipped over parallel fragment/word-count lists: the per-record
result of the boundary-token pass of `_merge_split_encodings`. -/
def taggedZip (eosId maxLen : Nat) (v : List (List Nat)) (w : List Nat) : List (List Nat) :=
  List.zipWith (fun vI wI => tagged eosId maxLen wI vI) v w

/-- The merged sequence `_merge_split_encodings` produces for one record
given its tokenized fragments and word counts. -/
def segMerge (eosId maxLen : Nat) (seg : List (List Nat) × List Nat) : List Nat :=
  (taggedZip eosId maxLen seg.1 seg.2).flatten

/-- The `needs_merge` flag pattern for a list of per-record segments: each
record contributes `False` followed by `True` for each later fragment. -/
def flattenFlags (segs : List (List (List Nat) × List Nat)) : List Bool :=
  (segs.map (fun s => false :: List.replicate (s.1.length - 1) true)).flatten

/-- Well-formedness of one record segment fed to the merge: at least one
fragment, parallel word counts, and no fragment that would make
`v[i][0]` raise while `wc[i] < max_sentence_len`. -/
def SegOk (maxLen : Nat) (seg : List (List Nat) × List Nat) : Prop :=
  seg.1 ≠ [] ∧ seg.1.length = seg.2.length ∧
    ∀ p ∈ seg.1.zip seg.2, p.2 < maxLen → p.1 ≠ []

/-- The merge segment one kept record contributes: its tokenized fragments
paired with their word counts. -/
def segOf (tok : Str → List Nat) (needEos : Bool) (eosTok : Str) (r : Str) :
    List (List Nat) × List Nat :=
  ((recordFrags needEos eosTok (normalizeQuotes r)).map tok,
   recordWcs needEos (normalizeQuotes r))

/-- A concrete space-sensitive model tokenizer used for witnesses and
counterexamples: maps its EOS token string to `[eosId]` and any other string
to the list of its character codes (so it never appends EOS natively). -/
def charTok (eosTok : Str) (eosId : Nat) (s : Str) : List Nat :=
  if s = eosTok then [eosId] else s.map Char.toNat

/-- A concrete model tokenizer whose output is never empty (it adds a
start-of-fragment token `7`), used where witnesses need every fragment to
tokenize to a nonempty sequence. -/
def charTokNE (eosTok : Str) (eosId : Nat) (s : Str) : List Nat :=
  if s = eosTok then [eosId] else 7 :: s.map Char.toNat

example : checkSkip "Hello world. This is a test.".toList = .ok false := by decide
example : checkSkip "Hello.\n\n".toList = .ok false := by decide
example : checkSkip "Hello. ".toList = .ok false := by decide
example : checkSkip "Hello".toList = .ok true := by decide
example : checkSkip "".toList = .error "IndexError" := by decide
example : checkSkip " ".toList = .error "IndexError" := by decide
example : checkSkip "\n".toList = .error "IndexError" := by decide
example : reSplitSent "Hello world. This is a test.".toList
    = ["Hello world.".toList, "This is a test.".toList] := by decide
example : reSplitSent "Hello.\n\n".toList = ["Hello.".toList, "".toList] := by decide
example : pySplitWs " Hello world.  ".toList = ["Hello".toList, "world.".toList] := by decide

example :
    batchTokenizerCall (charTok "</s>".toList 50256) 50256 1024 true "</s>".toList
      ["Hello world. This is a test.".toList]
    = .ok [[50259] ++ " Hello world.".toList.map Char.toNat
            ++ [50261] ++ " This is a test.".toList.map Char.toNat ++ [50256]] := by
  decide

example :
    batchTokenizerCall (charTok "</s>".toList 50256) 50256 1024 true "</s>".toList
      ["Hello.\n\n".toList]
    = .ok [[50258, 32, 72, 101, 108, 108, 111, 46, 50256]] := by decide

example :
    concatenateAndGroupTexts [0, 1, 2, 3, 4, 5, 6, 7, 8, 9] 4 (some 4) false true
    = [⟨[0, 1, 2, 3], none⟩, ⟨[4, 5, 6, 7], none⟩, ⟨[8, 9], none⟩] := by decide

example :
    concatenateAndGroupTexts [0, 1, 2, 3, 4, 5, 6, 7, 8, 9] 4 (some 4) true true
    = [⟨[0, 1, 2, 3], none⟩, ⟨[4, 5, 6, 7], none⟩] := by decide

example :
    concatenateAndGroupTexts [0, 1, 2, 3, 4, 5] 4 (some 2) false true
    = [⟨[0, 1, 2, 3], some [0, 1, 2, 3]⟩, ⟨[2, 3, 4, 5], some [-100, -100, 4, 5]⟩] := by
  decide

example :
    tokenSeqIter 8 none
      [[0, 1, 2, 3, 4, 5, 6, 7, 8, 9],
       [100, 101, 102, 103, 104, 105, 106, 107, 108, 109, 110, 111, 112, 113, 114]]
    = [[0, 1, 2, 3, 4, 5, 6, 7],
       [8, 9, 100, 101, 102, 103, 104, 105],
       [106, 107, 108, 109, 110, 111, 112, 113]] := by decide

theorem tagFrag_ok (eosId maxLen wcI : Nat) (vI : List Nat) (h : wcI < maxLen → vI ≠ []) :
    tagFrag eosId maxLen wcI vI = .ok (tagged eosId maxLen wcI vI) := by
  unfold tagFrag tagged
  by_cases hw : wcI < maxLen
  · cases vI with
    | nil => exact absurd rfl (h hw)
    | cons t ts =>
      by_cases ht : t = eosId <;> simp [hw, ht]
  · simp [hw]

theorem mergeListGo_trues (eosId maxLen : Nat) (v₂ : List (List Nat)) (f₂ : List Bool)
    (w₂ : List Nat) :
    ∀ (v₁ : List (List Nat)) (w₁ : List Nat) (vs out : List (List Nat)),
      v₁.length = w₁.length →
      (∀ p ∈ v₁.zip w₁, p.2 < maxLen → p.1 ≠ []) →
      mergeListGo eosId maxLen (v₁ ++ v₂) (List.replicate v₁.length true ++ f₂)
          (w₁ ++ w₂) vs out
        = mergeListGo eosId maxLen v₂ f₂ w₂ (vs ++ taggedZip eosId maxLen v₁ w₁) out := by
  intro v₁
  induction v₁ with
  | nil =>
    intro w₁ vs out hlen _
    cases w₁ with
    | nil => simp [taggedZip]
    | cons b w₁ => simp at hlen
  | cons a v₁ ih =>
    intro w₁ vs out hlen hok
    cases w₁ with
    | nil => simp at hlen
    | cons b w₁ =>
      have ha : b < maxLen → a ≠ [] := hok (a, b) (by simp)
      simp only [List.cons_append, List.length_cons, List.replicate_succ, mergeListGo,
        tagFrag_ok _ _ _ _ ha, if_true, List.append_eq]
      rw [ih w₁ (vs ++ [tagged eosId maxLen b a]) out (by simpa using hlen)
        (fun p hp => hok p (by simp [hp]))]
      simp [taggedZip]

theorem mergeListGo_single (eosId maxLen : Nat) (v₂ : List (List Nat)) (f₂ : List Bool)
    (w₂ : List Nat) (a : List Nat) (v₁ : List (List Nat)) (b : Nat) (w₁ : List Nat)
    (vs out : List (List Nat)) (hlen : v₁.length = w₁.length)
    (hab : b < maxLen → a ≠ [])
    (hok : ∀ p ∈ v₁.zip w₁, p.2 < maxLen → p.1 ≠ []) :
    mergeListGo eosId maxLen (a :: (v₁ ++ v₂))
        (false :: (List.replicate v₁.length true ++ f₂)) (b :: (w₁ ++ w₂)) vs out
      = mergeListGo eosId maxLen v₂ f₂ w₂ (taggedZip eosId maxLen (a :: v₁) (b :: w₁))
          (if vs.isEmpty then out else out ++ [vs.flatten]) := by
  simp only [mergeListGo, tagFrag_ok _ _ _ _ hab, if_false, Bool.false_eq_true,
    List.append_eq, List.nil_append]
  rw [mergeListGo_trues eosId maxLen v₂ f₂ w₂ v₁ w₁ [tagged eosId maxLen b a] _ hlen hok]
  simp [taggedZip]

theorem mergeListGo_segments (eosId maxLen : Nat) :
    ∀ (segs : List (List (List Nat) × List Nat)) (vs out : List (List Nat)),
      (∀ seg ∈ segs, SegOk maxLen seg) →
      mergeListGo eosId maxLen (segs.map Prod.fst).flatten (flattenFlags segs)
          (segs.map Prod.snd).flatten vs out
        = .ok ((if vs.isEmpty then out else out ++ [vs.flatten]) ++
            segs.map (segMerge eosId maxLen)) := by
  intro segs
  induction segs with
  | nil => intro vs out _; simp [flattenFlags, mergeListGo]
  | cons seg rest ih =>
    intro vs out hok
    obtain ⟨v, w⟩ := seg
    obtain ⟨hne, hlen, hfrag⟩ := hok (v, w) (by simp)
    cases v with
    | nil => exact absurd rfl hne
    | cons a v₁ =>
      cases w with
      | nil => simp at hlen
      | cons b w₁ =>
        have ha : b < maxLen → a ≠ [] := hfrag (a, b) (by simp)
        rw [show flattenFlags ((a :: v₁, b :: w₁) :: rest)
            = false :: (List.replicate v₁.length true ++ flattenFlags rest) from by
          simp [flattenFlags]]
        simp only [List.map_cons, List.flatten_cons, List.cons_append]
        rw [mergeListGo_single eosId maxLen _ _ _ a v₁ b w₁ vs out (by simpa using hlen)
          ha (fun p hp => hfrag p (by simp [hp]))]
        rw [ih (taggedZip eosId maxLen (a :: v₁) (b :: w₁)) _
          (fun s hs => hok s (by simp [hs]))]
        simp [taggedZip, segMerge]

theorem mergeSplitList_segments (eosId maxLen : Nat)
    (segs : List (List (List Nat) × List Nat))
    (h : ∀ seg ∈ segs, SegOk maxLen seg) :
    mergeSplitList (segs.map Prod.fst).flatten (flattenFlags segs)
        (segs.map Prod.snd).flatten eosId maxLen
      = .ok (segs.map (segMerge eosId maxLen)) := by
  unfold mergeSplitList
  rw [mergeListGo_segments eosId maxLen segs [] [] h]
  simp

theorem batchTokenizerPrep_all_kept (needEos : Bool) (eosTok : Str) :
    ∀ (records : List Str),
      (∀ r ∈ records, checkSkip (normalizeQuotes r) = .ok false) →
      batchTokenizerPrep needEos eosTok records
        = .ok ((records.map (fun r => recordFrags needEos eosTok (normalizeQuotes r))).flatten,
               (records.map (fun r => recordFlags needEos eosTok (normalizeQuotes r))).flatten,
               (records.map (fun r => recordWcs needEos (normalizeQuotes r))).flatten) := by
  intro records
  induction records with
  | nil => intro _; simp [batchTokenizerPrep]
  | cons d ds ih =>
    intro h
    have hd := h d (by simp)
    simp only [batchTokenizerPrep, hd]
    rw [ih (fun r hr => h r (by simp [hr]))]
    simp

theorem recordWcs_length (needEos : Bool) (eosTok : Str) (d : Str) :
    (recordFrags needEos eosTok d).length = (recordWcs needEos d).length := by
  by_cases hs : sentencesOf d = [] <;>
    cases needEos <;> simp [recordFrags, recordWcs, hs]

theorem recordFrags_ne_nil (needEos : Bool) (eosTok : Str) (d : Str)
    (hs : sentencesOf d ≠ []) : recordFrags needEos eosTok d ≠ [] := by
  cases needEos <;> simp [recordFrags, hs]

theorem taggedZip_flatten_length (eosId maxLen : Nat) :
    ∀ (v : List (List Nat)) (w : List Nat), v.length = w.length →
      (taggedZip eosId maxLen v w).flatten.length
        = (v.map List.length).sum
          + (v.zip w).countP (fun p => decide (p.2 < maxLen) && (p.1.head? != some eosId)) := by
  intro v
  induction v with
  | nil => intro w _; simp [taggedZip]
  | cons a v ih =>
    intro w hlen
    cases w with
    | nil => simp at hlen
    | cons b w =>
      have hrec := ih w (by simpa using hlen)
      by_cases hc : b < maxLen ∧ a.head? ≠ some eosId
      · have hb : (decide (b < maxLen) && (a.head? != some eosId)) = true := by
          simp [hc.1, bne_iff_ne, hc.2]
        simp only [taggedZip, List.zipWith_cons_cons, List.flatten_cons,
          List.length_append, List.map_cons, List.sum_cons, List.zip_cons_cons,
          List.countP_cons, hb]
        rw [show tagged eosId maxLen b a = (b + eosId + 1) :: a from by simp [tagged, hc]]
        simp only [taggedZip] at hrec
        rw [hrec]
        simp
        omega
      · have hb : (decide (b < maxLen) && (a.head? != some eosId)) = false := by
          rcases not_and_or.mp hc with h | h
          · simp [h]
          · simp only [ne_eq, not_not] at h
            simp [h]
        simp only [taggedZip, List.zipWith_cons_cons, List.flatten_cons,
          List.length_append, List.map_cons, List.sum_cons, List.zip_cons_cons,
          List.countP_cons, hb]
        rw [show tagged eosId maxLen b a = a from by simp [tagged, hc]]
        simp only [taggedZip] at hrec
        rw [hrec]
        simp
        omega

theorem segOf_ok (tok : Str → List Nat) (maxLen : Nat) (needEos : Bool) (eosTok : Str)
    (records : List Str)
    (hsent : ∀ r ∈ records, sentencesOf (normalizeQuotes r) ≠ [])
    (htok : ∀ s, tok s ≠ []) :
    ∀ seg ∈ records.map (segOf tok needEos eosTok), SegOk maxLen seg := by
  intro seg hseg
  obtain ⟨x, hx, rfl⟩ := List.mem_map.mp hseg
  refine ⟨?_, ?_, ?_⟩
  · simp only [segOf, ne_eq, List.map_eq_nil_iff]
    exact recordFrags_ne_nil needEos eosTok _ (hsent x hx)
  · simp [segOf, recordWcs_length needEos eosTok]
  · intro p hp _
    have h1 := (List.of_mem_zip hp).1
    simp only [segOf] at h1
    obtain ⟨s, _, hs⟩ := List.mem_map.mp h1
    rw [← hs]
    exact htok s

theorem batchTokenizerCall_all_kept (tok : Str → List Nat) (eosId maxLen : Nat)
    (needEos : Bool) (eosTok : Str) (records : List Str)
    (hkeep : ∀ r ∈ records, checkSkip (normalizeQuotes r) = .ok false)
    (hsent : ∀ r ∈ records, sentencesOf (normalizeQuotes r) ≠ [])
    (htok : ∀ s, tok s ≠ []) :
    batchTokenizerCall tok eosId maxLen needEos eosTok records
      = .ok ((records.map (segOf tok needEos eosTok)).map (segMerge eosId maxLen)) := by
  unfold batchTokenizerCall
  rw [batchTokenizerPrep_all_kept needEos eosTok records hkeep]
  by_cases hrec : records = []
  · subst hrec; simp
  · obtain ⟨r, rs, rfl⟩ := List.exists_cons_of_ne_nil hrec
    have hflag :
        (((r :: rs).map fun x => recordFlags needEos eosTok (normalizeQuotes x)).flatten).isEmpty
          = false := by
      simp [recordFlags, hsent r (by simp)]
    simp only [hflag, Bool.false_eq_true, if_false]
    have h1 : ((r :: rs).map (fun x => recordFrags needEos eosTok (normalizeQuotes x))).flatten.map tok
        = (((r :: rs).map (segOf tok needEos eosTok)).map Prod.fst).flatten := by
      rw [List.map_flatten, List.map_map, List.map_map]
      congr 1
    have h2 : ((r :: rs).map fun x => recordFlags needEos eosTok (normalizeQuotes x)).flatten
        = flattenFlags ((r :: rs).map (segOf tok needEos eosTok)) := by
      unfold flattenFlags
      rw [List.map_map]
      congr 1
      apply List.map_congr_left
      intro x hx
      simp [segOf, recordFlags, hsent x hx]
    have h3 : ((r :: rs).map fun x => recordWcs needEos (normalizeQuotes x)).flatten
        = (((r :: rs).map (segOf tok needEos eosTok)).map Prod.snd).flatten := by
      rw [List.map_map]
      congr 1
    rw [h1, h2, h3]
    exact mergeSplitList_segments eosId maxLen _
      (segOf_ok tok maxLen needEos eosTok (r :: rs) hsent htok)

/-- C1: for a batch of records that all pass the sentence-terminator filter
and all split into at least one sentence, `BatchTokenizer.__call__` (after
`_merge_split_encodings`) returns exactly one merged sequence per record, and
each merged sequence's token count is the sum of its fragments' token counts
(the synthetic EOS fragment included when EOS-append is enabled) plus one
boundary-length token per eligible fragment (word count below the maximum and
first token not the EOS id). -/
theorem batchTokenizer_merge_counts (tok : Str → List Nat) (eosId maxLen : Nat)
    (needEos : Bool) (eosTok : Str) (records : List Str)
    (hkeep : ∀ r ∈ records, checkSkip (normalizeQuotes r) = .ok false)
    (hsent : ∀ r ∈ records, sentencesOf (normalizeQuotes r) ≠ [])
    (htok : ∀ s, tok s ≠ []) :
    ∃ out : List (List Nat),
      batchTokenizerCall tok eosId maxLen needEos eosTok records = .ok out
      ∧ out.length = records.length
      ∧ ∀ (i : Nat) (r : Str), records[i]? = some r →
          ∃ m : List Nat, out[i]? = some m ∧
            m.length
              = (((recordFrags needEos eosTok (normalizeQuotes r)).map tok).map List.length).sum
                + (((recordFrags needEos eosTok (normalizeQuotes r)).map tok).zip
                    (recordWcs needEos (normalizeQuotes r))).countP
                    (fun p => decide (p.2 < maxLen) && (p.1.head? != some eosId)) := by
  refine ⟨(records.map (segOf tok needEos eosTok)).map (segMerge eosId maxLen),
    batchTokenizerCall_all_kept tok eosId maxLen needEos eosTok records hkeep hsent htok,
    by simp, ?_⟩
  intro i r hi
  refine ⟨segMerge eosId maxLen (segOf tok needEos eosTok r), ?_, ?_⟩
  · rw [List.getElem?_map, List.getElem?_map, hi]
    rfl
  · unfold segMerge segOf
    exact taggedZip_flatten_length eosId maxLen _ _
      (by simp [recordWcs_length needEos eosTok])

/-- Witness for C1 at a concrete batch and tokenizer. -/
theorem batchTokenizer_merge_counts_witness :
    (∀ r ∈ (["Hi there. Bye.".toList] : List Str),
        checkSkip (normalizeQuotes r) = .ok false)
    ∧ (∀ r ∈ (["Hi there. Bye.".toList] : List Str),
        sentencesOf (normalizeQuotes r) ≠ [])
    ∧ (∀ s : Str, charTokNE "</s>".toList 9 s ≠ [])
    ∧ ∃ out : List (List Nat),
        batchTokenizerCall (charTokNE "</s>".toList 9) 9 1024 true "</s>".toList
            ["Hi there. Bye.".toList] = .ok out
        ∧ out.length = (["Hi there. Bye.".toList] : List Str).length
        ∧ ∀ (i : Nat) (r : Str), (["Hi there. Bye.".toList] : List Str)[i]? = some r →
            ∃ m : List Nat, out[i]? = some m ∧
              m.length
                = (((recordFrags true "</s>".toList (normalizeQuotes r)).map
                      (charTokNE "</s>".toList 9)).map List.length).sum
                  + (((recordFrags true "</s>".toList (normalizeQuotes r)).map
                        (charTokNE "</s>".toList 9)).zip
                      (recordWcs true (normalizeQuotes r))).countP
                      (fun p => decide (p.2 < 1024) && (p.1.head? != some 9)) := by
  have h1 : ∀ r ∈ (["Hi there. Bye.".toList] : List Str),
      checkSkip (normalizeQuotes r) = .ok false := by decide
  have h2 : ∀ r ∈ (["Hi there. Bye.".toList] : List Str),
      sentencesOf (normalizeQuotes r) ≠ [] := by decide
  have h3 : ∀ s : Str, charTokNE "</s>".toList 9 s ≠ [] := by
    intro s
    unfold charTokNE
    split <;> simp
  exact ⟨h1, h2, h3,
    batchTokenizer_merge_counts (charTokNE "</s>".toList 9) 9 1024 true "</s>".toList
      ["Hi there. Bye.".toList] h1 h2 h3⟩

/-- Counterexample to C3 as stated: with `eos_token_id = 10` and
`max_sentence_len = 1024`, a fragment whose word count is exactly 1024 (which
does not *exceed* the maximum) gets no boundary token, and a two-token
fragment `[10, 7]` that merely *starts* with the EOS id (but is not itself
the EOS token) also gets none; the claim predicts `[[1035, 5, 6, 12, 10, 7]]`
but the code produces `[[5, 6, 10, 7]]`. -/
theorem mergeSplit_tag_rule_counterexample :
    mergeSplitList [[5, 6], [10, 7]] [false, true] [1024, 1] 10 1024
      = .ok [[5, 6, 10, 7]]
    ∧ (Except.ok [[5, 6, 10, 7]] : Except String (List (List Nat)))
        ≠ .ok [[1035, 5, 6, 12, 10, 7]] := by decide

/-- C3 (amended): in the list branch of `_merge_split_encodings`, a fragment
of a merged record is prefixed with the boundary token
`word_count + eos_token_id + 1` exactly when its word count is strictly below
`max_sentence_len` and its *first token* is not `eos_token_id`; otherwise it
is left unprefixed (`tagged` is precisely that rule). -/
theorem mergeSplit_tag_rule (eosId maxLen : Nat) (v : List (List Nat)) (w : List Nat)
    (hlen : v.length = w.length) (hne : v ≠ [])
    (hok : ∀ p ∈ v.zip w, p.2 < maxLen → p.1 ≠ []) :
    mergeSplitList v (false :: List.replicate (v.length - 1) true) w eosId maxLen
      = .ok [(taggedZip eosId maxLen v w).flatten] := by
  have h := mergeSplitList_segments eosId maxLen [(v, w)] (by
    intro seg hseg
    simp only [List.mem_singleton] at hseg
    subst hseg
    exact ⟨hne, hlen, hok⟩)
  simpa [flattenFlags, segMerge] using h

/-- Witness for the amended C3 rule at a concrete merge input. -/
theorem mergeSplit_tag_rule_witness :
    (([[3, 4], [10, 9], [8]] : List (List Nat)).length = ([2, 1, 1024] : List Nat).length)
    ∧ (([[3, 4], [10, 9], [8]] : List (List Nat)) ≠ [])
    ∧ (∀ p ∈ ([[3, 4], [10, 9], [8]] : List (List Nat)).zip ([2, 1, 1024] : List Nat),
        p.2 < 1024 → p.1 ≠ [])
    ∧ mergeSplitList [[3, 4], [10, 9], [8]]
        (false :: List.replicate (([[3, 4], [10, 9], [8]] : List (List Nat)).length - 1) true)
        [2, 1, 1024] 10 1024
      = .ok [(taggedZip 10 1024 [[3, 4], [10, 9], [8]] [2, 1, 1024]).flatten] :=
  ⟨by decide, by decide, by decide,
    mergeSplit_tag_rule 10 1024 [[3, 4], [10, 9], [8]] [2, 1, 1024]
      (by decide) (by decide) (by decide)⟩

theorem batchTokenizerPrep_flags_head (needEos : Bool) (eosTok : Str) :
    ∀ (records : List Str) (b : List Str) (f : List Bool) (w : List Nat),
      batchTokenizerPrep needEos eosTok records = .ok (b, f, w) → f ≠ [] →
      f.head? = some false := by
  intro records
  induction records with
  | nil =>
    intro b f w h hf
    simp only [batchTokenizerPrep, Except.ok.injEq, Prod.mk.injEq] at h
    exact absurd h.2.1.symm hf
  | cons d ds ih =>
    intro b f w h hf
    simp only [batchTokenizerPrep] at h
    cases hc : checkSkip (normalizeQuotes d) with
    | error e => rw [hc] at h; simp at h
    | ok sk =>
      rw [hc] at h
      cases sk with
      | true => exact ih b f w h hf
      | false =>
        cases hp : batchTokenizerPrep needEos eosTok ds with
        | error e => rw [hp] at h; simp at h
        | ok t =>
          obtain ⟨b', f', w'⟩ := t
          rw [hp] at h
          simp only [Except.ok.injEq, Prod.mk.injEq] at h
          obtain ⟨hb, hfe, hw⟩ := h
          subst hfe
          by_cases hs : sentencesOf (normalizeQuotes d) = []
          · rw [show recordFlags needEos eosTok (normalizeQuotes d) = [] from by
              simp [recordFlags, hs]] at hf ⊢
            exact ih b' f' w' hp (by simpa using hf)
          · rw [show recordFlags needEos eosTok (normalizeQuotes d)
                = false :: List.replicate
                    ((recordFrags needEos eosTok (normalizeQuotes d)).length - 1) true from by
              simp [recordFlags, hs]]
            simp

/-- C9: on any nonempty batch whose per-field values are numpy arrays, the
ndarray branch of `_merge_split_encodings` raises
`np.concatenate([])`'s ValueError at the very first record boundary and
never completes, because the first entry of the `needs_merge` flags produced
by `BatchTokenizer.__call__` is always `False` (second conjunct). -/
theorem mergeSplitArray_never_ok :
    (∀ (vI : List Nat) (vr : List (List Nat)) (fr : List Bool) (wI : Nat) (wr : List Nat)
        (eosId maxLen : Nat),
      mergeSplitArray (vI :: vr) (false :: fr) (wI :: wr) eosId maxLen
        = .error "ValueError: need at least one array to concatenate")
    ∧ (∀ (needEos : Bool) (eosTok : Str) (records : List Str)
        (b : List Str) (f : List Bool) (w : List Nat),
        batchTokenizerPrep needEos eosTok records = .ok (b, f, w) → f ≠ [] →
        f.head? = some false) := by
  constructor
  · intro vI vr fr wI wr eosId maxLen
    simp [mergeSplitArray, mergeArrayGo, npConcat]
  · intro needEos eosTok records
    exact batchTokenizerPrep_flags_head needEos eosTok records

/-- Witness for C9: the concrete single-record merge raises, and the flags
the pipeline produces for the batch `["Hi."]` start with `False`. -/
theorem mergeSplitArray_never_ok_witness :
    mergeSplitArray [[1, 2]] [false] [3] 10 1024
      = .error "ValueError: need at least one array to concatenate"
    ∧ ([false, true] : List Bool).head? = some false :=
  ⟨mergeSplitArray_never_ok.1 [1, 2] [] [] 3 [] 10 1024,
   mergeSplitArray_never_ok.2 true "</s>".toList ["Hi.".toList]
     [" Hi.".toList, "</s>".toList] [false, true] [1, 1] (by decide) (by decide)⟩

/-- Counterexample to C4 as stated: with a concrete space-sensitive tokenizer
that does not natively append EOS, the merged record is *not*
`[len_0] + tokens("Hello world.") + [len_1] + tokens(" This is a test.") + [eos]`;
the code re-prefixes the *first* sentence with a leading space as well, so
the first fragment is `tokens(" Hello world.")`. -/
theorem batchTokenizer_example_counterexample :
    batchTokenizerCall (charTok "</s>".toList 50256) 50256 1024 true "</s>".toList
        ["Hello world. This is a test.".toList]
      ≠ .ok [(2 + 50256 + 1) :: charTok "</s>".toList 50256 "Hello world.".toList
              ++ (4 + 50256 + 1) :: charTok "</s>".toList 50256 " This is a test.".toList
              ++ [50256]]
    ∧ batchTokenizerCall (charTok "</s>".toList 50256) 50256 1024 true "</s>".toList
        ["Hello world. This is a test.".toList]
      = .ok [(2 + 50256 + 1) :: charTok "</s>".toList 50256 " Hello world.".toList
              ++ (4 + 50256 + 1) :: charTok "</s>".toList 50256 " This is a test.".toList
              ++ [50256]] := by decide

/-- C4 (amended): for the single record `"Hello world. This is a test."` with
`enforce_eos = True` and any tokenizer that does not natively append EOS
(modelled by `tok eosTok = [eosId]` plus nonempty, non-EOS-initial encodings
for the two spaced sentences), `BatchTokenizer.__call__` produces the 2
sentence fragments plus 1 synthetic EOS fragment merged into exactly one
record `[len_0] ++ tok " Hello world." ++ [len_1] ++ tok " This is a test."
++ [eosId]` with `len_i = word_count + eos_token_id + 1` (word counts 2 and
4). -/
theorem batchTokenizer_example_scenario (tok : Str → List Nat) (eosId : Nat) (eosTok : Str)
    (heos : tok eosTok = [eosId])
    (hne1 : tok " Hello world.".toList ≠ [])
    (hh1 : (tok " Hello world.".toList).head? ≠ some eosId)
    (hne2 : tok " This is a test.".toList ≠ [])
    (hh2 : (tok " This is a test.".toList).head? ≠ some eosId) :
    batchTokenizerCall tok eosId 1024 true eosTok ["Hello world. This is a test.".toList]
      = .ok [(2 + eosId + 1) :: tok " Hello world.".toList
              ++ (4 + eosId + 1) :: tok " This is a test.".toList ++ [eosId]] := by
  have hprep : batchTokenizerPrep true eosTok ["Hello world. This is a test.".toList]
      = .ok ([" Hello world.".toList, " This is a test.".toList, eosTok],
             [false, true, true], [2, 4, 1]) := rfl
  unfold batchTokenizerCall
  rw [hprep]
  simp only [List.isEmpty_cons, Bool.false_eq_true, if_false, List.map_cons,
    List.map_nil, heos]
  have hseg := mergeSplitList_segments eosId 1024
    [([tok " Hello world.".toList, tok " This is a test.".toList, [eosId]], [2, 4, 1])]
    (by
      intro seg hseg'
      simp only [List.mem_singleton] at hseg'
      subst hseg'
      refine ⟨by simp, by simp, ?_⟩
      intro p hp _
      simp only [List.zip_cons_cons, List.zip_nil_left, List.mem_cons,
        List.not_mem_nil, or_false] at hp
      obtain h | h | h := hp
      · subst h; exact hne1
      · subst h; exact hne2
      · subst h; simp)
  simp only [List.map_cons, List.map_nil, List.flatten_cons, List.flatten_nil,
    List.append_nil, flattenFlags, segMerge, taggedZip, List.zipWith_cons_cons,
    List.zipWith_nil_right, List.length_cons, List.length_nil] at hseg
  rw [show false :: List.replicate (0 + 1 + 1 + 1 - 1) true = [false, true, true] from by
    decide] at hseg
  rw [hseg]
  rw [show tagged eosId 1024 2 (tok " Hello world.".toList)
      = (2 + eosId + 1) :: tok " Hello world.".toList from by
    unfold tagged; rw [if_pos ⟨by norm_num, hh1⟩]]
  rw [show tagged eosId 1024 4 (tok " This is a test.".toList)
      = (4 + eosId + 1) :: tok " This is a test.".toList from by
    unfold tagged; rw [if_pos ⟨by norm_num, hh2⟩]]
  rw [show tagged eosId 1024 1 [eosId] = [eosId] from by
    unfold tagged; rw [if_neg (by simp)]]
  simp

/-- Witness for the amended C4 scenario with the concrete character
tokenizer. -/
theorem batchTokenizer_example_scenario_witness :
    charTok "</s>".toList 50256 "</s>".toList = [50256]
    ∧ charTok "</s>".toList 50256 " Hello world.".toList ≠ []
    ∧ (charTok "</s>".toList 50256 " Hello world.".toList).head? ≠ some 50256
    ∧ charTok "</s>".toList 50256 " This is a test.".toList ≠ []
    ∧ (charTok "</s>".toList 50256 " This is a test.".toList).head? ≠ some 50256
    ∧ batchTokenizerCall (charTok "</s>".toList 50256) 50256 1024 true "</s>".toList
        ["Hello world. This is a test.".toList]
      = .ok [(2 + 50256 + 1) :: charTok "</s>".toList 50256 " Hello world.".toList
              ++ (4 + 50256 + 1) :: charTok "</s>".toList 50256 " This is a test.".toList
              ++ [50256]] :=
  ⟨by decide, by decide, by decide, by decide, by decide,
   batchTokenizer_example_scenario (charTok "</s>".toList 50256) 50256 "</s>".toList
     (by decide) (by decide) (by decide) (by decide) (by decide)⟩

/-- Counterexample to C7 as stated: the record `"Hello.\n\n"` ends in a
terminator followed by *two* newlines, so under the claim's filter ("the
terminator may optionally be followed by a single trailing newline") it
would be dropped and the batch output would be empty; the code keeps it and
produces one merged sequence. -/
theorem terminator_filter_counterexample :
    batchTokenizerCall (charTok "</s>".toList 50256) 50256 1024 true "</s>".toList
        ["Hello.\n\n".toList]
      = .ok [[50258, 32, 72, 101, 108, 108, 111, 46, 50256]]
    ∧ (Except.ok [[50258, 32, 72, 101, 108, 108, 111, 46, 50256]]
        : Except String (List (List Nat))) ≠ .ok [] := by decide

theorem splitWsGo_ne_nil : ∀ (s acc : Str) (w : Str), w ∈ splitWsGo s acc → w ≠ [] := by
  intro s
  induction s with
  | nil =>
    intro acc w hw
    simp only [splitWsGo] at hw
    split at hw
    · simp at hw
    · next hacc =>
      simp only [List.mem_singleton] at hw
      subst hw
      intro h
      exact hacc (by simp [List.reverse_eq_nil_iff.mp h])
  | cons c s ih =>
    intro acc w hw
    simp only [splitWsGo] at hw
    split at hw
    · split at hw
      · exact ih [] w hw
      · next hacc =>
        rcases List.mem_cons.mp hw with h | h
        · subst h
          intro h'
          exact hacc (by simp [List.reverse_eq_nil_iff.mp h'])
        · exact ih [] w h
    · exact ih (c :: acc) w hw

theorem splitWsGo_append_space (c : Char) (hc : isPySpace c = true) :
    ∀ (s acc : Str), splitWsGo (s ++ [c]) acc = splitWsGo s acc := by
  intro s
  induction s with
  | nil =>
    intro acc
    by_cases h : acc.isEmpty <;> simp [splitWsGo, hc, h]
  | cons x s ih =>
    intro acc
    by_cases hx : isPySpace x <;> by_cases ha : acc.isEmpty <;>
      simp [splitWsGo, hx, ha, ih]

theorem pySplitWs_dropLast (d : Str) (c : Char) (h : d.getLast? = some c)
    (hc : isPySpace c = true) : pySplitWs d.dropLast = pySplitWs d := by
  have hne : d ≠ [] := by
    intro he
    subst he
    simp at h
  have hd : d.dropLast ++ [c] = d := by
    have := List.dropLast_append_getLast hne
    rwa [List.getLast_eq_iff_getLast?_eq_some hne |>.mpr h] at this
  calc pySplitWs d.dropLast = splitWsGo (d.dropLast ++ [c]) [] :=
        (splitWsGo_append_space c hc d.dropLast []).symm
    _ = pySplitWs d := by rw [hd]; rfl

theorem checkSkip_of_lastWord (d : Str) (hne : d ≠ [])
    (hw : pySplitWs d ≠ []) (hterm : lastWordEndsTerm d = false) :
    checkSkip d = .ok true := by
  obtain ⟨w, hwl⟩ : ∃ w, (pySplitWs d).getLast? = some w := by
    cases hl : (pySplitWs d).getLast? with
    | none => exact absurd (List.getLast?_eq_none_iff.mp hl) hw
    | some w => exact ⟨w, rfl⟩
  have hwmem : w ∈ pySplitWs d := by
    obtain ⟨h', he⟩ := List.mem_getLast?_eq_getLast (Option.mem_def.mpr hwl)
    rw [he]
    exact List.getLast_mem h'
  have hwne : w ≠ [] := splitWsGo_ne_nil d [] w hwmem
  obtain ⟨wc, hwc⟩ : ∃ wc, w.getLast? = some wc := by
    cases hl : w.getLast? with
    | none => exact absurd (List.getLast?_eq_none_iff.mp hl) hwne
    | some wc => exact ⟨wc, rfl⟩
  have hterm' : isTerm wc = false := by
    simp only [lastWordEndsTerm, hwl, hwc] at hterm
    exact hterm
  obtain ⟨cl, hcl⟩ : ∃ cl, d.getLast? = some cl := by
    cases hl : d.getLast? with
    | none => exact absurd (List.getLast?_eq_none_iff.mp hl) hne
    | some cl => exact ⟨cl, rfl⟩
  by_cases hcn : cl = '\n'
  · subst hcn
    have hdrop := pySplitWs_dropLast d '\n' hcl (by decide)
    simp [checkSkip, hcl, hdrop, hwl, hwc, hterm']
  · simp [checkSkip, hcl, hwl, hwc, hterm', hcn]

theorem batchTokenizerPrep_skip (needEos : Bool) (eosTok : Str) (r : Str)
    (hskip : checkSkip (normalizeQuotes r) = .ok true) :
    ∀ (rs₁ rs₂ : List Str),
      batchTokenizerPrep needEos eosTok (rs₁ ++ r :: rs₂)
        = batchTokenizerPrep needEos eosTok (rs₁ ++ rs₂) := by
  intro rs₁
  induction rs₁ with
  | nil =>
    intro rs₂
    simp only [List.nil_append, batchTokenizerPrep, hskip]
  | cons x xs ih =>
    intro rs₂
    simp only [List.cons_append, batchTokenizerPrep, List.append_eq]
    rw [ih rs₂]

/-- C7 (amended): `BatchTokenizer.__call__` silently drops exactly the
records whose last whitespace-delimited word (after quote normalization)
does not end in `.`, `!` or `?` — equivalently, any amount of trailing
whitespace after the terminator is tolerated, not just a single newline.
Such a record contributes nothing to the output of any batch and raises no
error: the call's result is the same as if the record were absent. -/
theorem batchTokenizer_drops_unterminated (tok : Str → List Nat) (eosId maxLen : Nat)
    (needEos : Bool) (eosTok : Str) (r : Str) (rs₁ rs₂ : List Str)
    (hne : normalizeQuotes r ≠ [])
    (hw : pySplitWs (normalizeQuotes r) ≠ [])
    (hterm : lastWordEndsTerm (normalizeQuotes r) = false) :
    batchTokenizerCall tok eosId maxLen needEos eosTok (rs₁ ++ r :: rs₂)
      = batchTokenizerCall tok eosId maxLen needEos eosTok (rs₁ ++ rs₂) := by
  have hskip := checkSkip_of_lastWord (normalizeQuotes r) hne hw hterm
  unfold batchTokenizerCall
  rw [batchTokenizerPrep_skip needEos eosTok r hskip rs₁ rs₂]

/-- Witness for the amended C7: dropping the unterminated record `"Hello"`
from a concrete batch leaves the call's output unchanged. -/
theorem batchTokenizer_drops_unterminated_witness :
    normalizeQuotes "Hello".toList ≠ []
    ∧ pySplitWs (normalizeQuotes "Hello".toList) ≠ []
    ∧ lastWordEndsTerm (normalizeQuotes "Hello".toList) = false
    ∧ batchTokenizerCall (charTok "</s>".toList 50256) 50256 1024 true "</s>".toList
        (["Hi.".toList] ++ "Hello".toList :: [])
      = batchTokenizerCall (charTok "</s>".toList 50256) 50256 1024 true "</s>".toList
        (["Hi.".toList] ++ []) :=
  ⟨by decide, by decide, by decide,
   batchTokenizer_drops_unterminated (charTok "</s>".toList 50256) 50256 1024 true
     "</s>".toList "Hello".toList ["Hi.".toList] [] (by decide) (by decide) (by decide)⟩

theorem pyReplace2_all_space (a b r s : Char) (ha : isPySpace a = false) :
    ∀ (d : Str), (∀ c ∈ d, isPySpace c = true) → pyReplace2 a b r s d = d := by
  intro d
  induction d with
  | nil => intro _; rfl
  | cons c rest ih =>
    intro h
    have hca : (c == a) = false := by
      rw [beq_eq_false_iff_ne]
      intro he
      have hc := h c (by simp)
      simp [he, ha] at hc
    cases rest with
    | nil => rfl
    | cons e rest' =>
      simp only [pyReplace2, hca, Bool.false_and, Bool.false_eq_true, if_false]
      rw [ih (fun x hx => h x (by simp [hx]))]

theorem normalizeQuotes_all_space (d : Str) (h : ∀ c ∈ d, isPySpace c = true) :
    normalizeQuotes d = d := by
  unfold normalizeQuotes
  rw [pyReplace2_all_space '.' '"' '"' '.' (by decide) d h,
    pyReplace2_all_space '.' '\'' '\'' '.' (by decide) d h,
    pyReplace2_all_space '?' '"' '"' '?' (by decide) d h,
    pyReplace2_all_space '!' '"' '"' '!' (by decide) d h,
    pyReplace2_all_space '?' '\'' '\'' '?' (by decide) d h,
    pyReplace2_all_space '!' '\'' '\'' '!' (by decide) d h]

theorem splitWsGo_all_space : ∀ (d : Str), (∀ c ∈ d, isPySpace c = true) →
    splitWsGo d [] = [] := by
  intro d
  induction d with
  | nil => intro _; rfl
  | cons c rest ih =>
    intro h
    simp only [splitWsGo, h c (by simp), if_true, List.isEmpty_nil]
    exact ih (fun x hx => h x (by simp [hx]))

theorem checkSkip_all_space (d : Str) (h : ∀ c ∈ d, isPySpace c = true) :
    checkSkip d = .error "IndexError" := by
  have hsplit : pySplitWs d = [] := splitWsGo_all_space d h
  cases hd : d.getLast? with
  | none => simp [checkSkip, hd]
  | some c =>
    by_cases hcn : c = '\n'
    · subst hcn
      have hdrop := pySplitWs_dropLast d '\n' hd (by decide)
      simp [checkSkip, hd, hdrop, hsplit]
    · simp [checkSkip, hd, hsplit, hcn]

theorem checkSkip_error_msg (d : Str) (e : String) (h : checkSkip d = .error e) :
    e = "IndexError" := by
  unfold checkSkip at h
  repeat' split at h
  all_goals simp_all

theorem batchTokenizerPrep_ws_error (needEos : Bool) (eosTok : Str) :
    ∀ (records : List Str) (r : Str), r ∈ records → (∀ c ∈ r, isPySpace c = true) →
      batchTokenizerPrep needEos eosTok records = .error "IndexError" := by
  intro records
  induction records with
  | nil => intro r hr; simp at hr
  | cons d ds ih =>
    intro r hr hws
    rcases List.mem_cons.mp hr with h | h
    · subst h
      have h1 : checkSkip (normalizeQuotes r) = .error "IndexError" := by
        rw [normalizeQuotes_all_space r hws]
        exact checkSkip_all_space r hws
      simp [batchTokenizerPrep, h1]
    · cases hc : checkSkip (normalizeQuotes d) with
      | error e =>
        have he := checkSkip_error_msg _ _ hc
        subst he
        simp [batchTokenizerPrep, hc]
      | ok sk =>
        have hds := ih r h hws
        cases sk <;> simp [batchTokenizerPrep, hc, hds]

/-- C10: `BatchTokenizer.__call__` raises an uncaught IndexError whenever any
record of the batch is empty or consists only of whitespace (the terminator
check indexes `d[-1]` on the empty string, or `split()[-1]` on an empty word
list); such records are not silently dropped. -/
theorem batchTokenizer_ws_record_raises (tok : Str → List Nat) (eosId maxLen : Nat)
    (needEos : Bool) (eosTok : Str) (records : List Str) (r : Str)
    (hr : r ∈ records) (hws : ∀ c ∈ r, isPySpace c = true) :
    batchTokenizerCall tok eosId maxLen needEos eosTok records
      = .error "IndexError" := by
  unfold batchTokenizerCall
  rw [batchTokenizerPrep_ws_error needEos eosTok records r hr hws]

/-- Witness for C10: a batch containing the whitespace-only record `" "`
makes the call raise. -/
theorem batchTokenizer_ws_record_raises_witness :
    (" ".toList ∈ (["Hi.".toList, " ".toList] : List Str))
    ∧ (∀ c ∈ " ".toList, isPySpace c = true)
    ∧ batchTokenizerCall (charTok "</s>".toList 50256) 50256 1024 true "</s>".toList
        ["Hi.".toList, " ".toList] = .error "IndexError" :=
  ⟨by decide, by decide,
   batchTokenizer_ws_record_raises (charTok "</s>".toList 50256) 50256 1024 true
     "</s>".toList ["Hi.".toList, " ".toList] " ".toList (by decide) (by decide)⟩

/-- C8 (code evidence): because `CausalLmDataset.__iter__` never rebinds its
loop-level `key` — the `this_key, key = jax.random.split(key)` rebinding is
local to the jitted `_create_lm_example` — every example of an iteration is
built from the *same* subkey `(split key).1`, so the forgetful-causal masks
are identical across examples rather than freshly derived per example. -/
theorem causalLmIter_constant_key (split : Nat → Nat × Nat) (fcmProb : ℚ) (key : Nat)
    (docs : List (List Int)) :
    (causalLmIter split fcmProb key docs).map LmExampleM.fcmKey
      = List.replicate docs.length (if 0 < fcmProb then some (split key).1 else none) := by
  induction docs with
  | nil => rfl
  | cons t ts ih =>
    simp only [causalLmIter, List.map_cons, ih, List.length_cons, List.replicate_succ]
    congr 1
    unfold createLmExample
    split <;> rfl

theorem pyOrStride_self (S : Nat) : pyOrStride (some S) S = S := by
  cases S <;> rfl

theorem pyRangeCount_natCast (L S : Nat) : pyRangeCount (L : Int) S = (L + S - 1) / S := by
  unfold pyRangeCount
  by_cases h : L = 0
  · subst h
    rw [if_pos (by norm_num)]
    rcases Nat.eq_zero_or_pos S with h | h
    · subst h; rfl
    · exact (Nat.div_eq_of_lt (by omega)).symm
  · rw [if_neg (by exact_mod_cast h ∘ Nat.le_zero.mp)]
    norm_num

theorem join_slices (tokens : List Int) (S : Nat) :
    ∀ (q : Nat),
      ((List.range q).map (fun i => (tokens.drop (i * S)).take S)).flatten
        = tokens.take (q * S) := by
  intro q
  induction q with
  | zero => simp
  | succ q ih =>
    rw [List.range_succ, List.map_append, List.flatten_append, ih]
    simp only [List.map_cons, List.map_nil, List.flatten_cons, List.flatten_nil,
      List.append_nil, Nat.succ_mul]
    rw [List.take_add]

theorem filter_range_downward (q : Nat) (p : Nat → Bool) (hp : ∀ i, p i = true ↔ i < q) :
    ∀ (n : Nat), (List.range n).filter p = List.range (min q n) := by
  intro n
  induction n with
  | zero => simp
  | succ n ih =>
    rw [List.range_succ, List.filter_append, ih]
    by_cases h : n < q
    · rw [show min q n = n from by omega, show min q (n + 1) = n + 1 from by omega,
        List.range_succ]
      simp [(hp n).mpr h]
    · rw [show min q n = q from by omega, show min q (n + 1) = q from by omega]
      have : p n = false := by
        cases hpn : p n with
        | true => exact absurd ((hp n).mp hpn) h
        | false => rfl
      simp [this]

/-- C2: with `seq_len = S`, `stride = S` and `drop_remainder = False`,
concatenating the full windows emitted by `concatenate_and_group_texts`
(excluding any final window shorter than `S`) reproduces exactly the first
`(L / S) * S` tokens of the stream, in order. -/
theorem concatenate_roundtrip (tokens : List Int) (S : Nat) (m : Bool) (hS : 0 < S) :
    (((concatenateAndGroupTexts tokens S (some S) false m).map Window.input_ids).filter
        (fun w => w.length == S)).flatten
      = tokens.take (tokens.length / S * S) := by
  have hW : (concatenateAndGroupTexts tokens S (some S) false m).map Window.input_ids
      = (List.range ((tokens.length + S - 1) / S)).map
          (fun i => (tokens.drop (i * S)).take S) := by
    unfold concatenateAndGroupTexts cgtBegins
    rw [pyOrStride_self]
    have htot : cgtTotal tokens.length S S false = (tokens.length : Int) := by
      simp [cgtTotal]
    rw [htot, show (tokens.length : Int) - S + S = (tokens.length : Int) from by ring,
      pyRangeCount_natCast, List.map_map, List.map_map]
    apply List.map_congr_left
    intro i _
    simp [cgtWindow]
  rw [hW, List.filter_map]
  have hp : ∀ i,
      (((fun w : List Int => w.length == S) ∘ (fun i => (tokens.drop (i * S)).take S)) i)
        = true ↔ i < tokens.length / S := by
    intro i
    simp only [Function.comp_apply, List.length_take, List.length_drop, beq_iff_eq]
    have hsucc : (i + 1) * S = i * S + S := by ring
    constructor
    · intro h
      have hle : (i + 1) * S ≤ tokens.length := by omega
      have := (Nat.le_div_iff_mul_le hS).mpr hle
      omega
    · intro h
      have hle : (i + 1) * S ≤ tokens.length := (Nat.le_div_iff_mul_le hS).mp (by omega)
      omega
  rw [filter_range_downward (tokens.length / S) _ hp]
  rw [show min (tokens.length / S) ((tokens.length + S - 1) / S) = tokens.length / S from by
    have h2 : tokens.length / S ≤ (tokens.length + S - 1) / S :=
      Nat.div_le_div_right (by omega)
    omega]
  exact join_slices tokens S _

theorem pyOrStride_pos (t S : Nat) (ht : 0 < t) : pyOrStride (some t) S = t := by
  cases t with
  | zero => omega
  | succ n => rfl

theorem lt_of_lt_ceilDiv (σ t i : Nat) (ht : 0 < t) (hi : i < (σ + t - 1) / t) :
    i * t < σ := by
  rcases Nat.eq_zero_or_pos σ with h | h
  · subst h
    rw [show 0 + t - 1 = t - 1 from by omega, Nat.div_eq_of_lt (by omega)] at hi
    omega
  · rw [show σ + t - 1 = (σ - 1) + t from by omega, Nat.add_div_right _ ht] at hi
    have h2 : i ≤ (σ - 1) / t := by omega
    have h3 : i * t ≤ ((σ - 1) / t) * t := Nat.mul_le_mul_right t h2
    have h4 : ((σ - 1) / t) * t ≤ σ - 1 := Nat.div_mul_le_self _ t
    omega

theorem cgtTotal_le (L S t : Nat) (dr : Bool) (ht : 0 < t) (hts : t ≤ S) :
    cgtTotal L S t dr ≤ (L : Int) := by
  unfold cgtTotal
  split
  · have h0 : (t : Int) ≠ 0 := by exact_mod_cast Nat.pos_iff_ne_zero.mp ht
    have h1 : (((L : Int) - S + t).fdiv t) * t ≤ (L : Int) - S + t := by
      rw [Int.fdiv_eq_ediv _ (by exact_mod_cast Nat.zero_le t)]
      exact Int.ediv_mul_le _ h0
    have h2 : (t : Int) ≤ (S : Int) := by exact_mod_cast hts
    omega
  · exact le_refl _

theorem cgt_length (tokens : List Int) (S t : Nat) (dr mo : Bool) (ht : 0 < t) :
    (concatenateAndGroupTexts tokens S (some t) dr mo).length
      = pyRangeCount (cgtTotal tokens.length S t dr - S + t) t := by
  unfold concatenateAndGroupTexts cgtBegins
  rw [pyOrStride_pos t S ht]
  simp

theorem cgt_window_long (tokens : List Int) (S t : Nat) (dr : Bool) (ht : 0 < t)
    (hts : t < S) (i : Nat)
    (hi : i < (concatenateAndGroupTexts tokens S (some t) dr true).length) :
    S - t < ((tokens.drop (i * t)).take S).length := by
  rw [cgt_length tokens S t dr true ht] at hi
  by_cases hpos : cgtTotal tokens.length S t dr - S + t ≤ 0
  · unfold pyRangeCount at hi
    rw [if_pos hpos] at hi
    omega
  · unfold pyRangeCount at hi
    rw [if_neg hpos] at hi
    have hmul : i * t < (cgtTotal tokens.length S t dr - S + t).toNat :=
      lt_of_lt_ceilDiv _ t i ht hi
    have hle := cgtTotal_le tokens.length S t dr ht (le_of_lt hts)
    simp only [List.length_take, List.length_drop]
    omega

theorem cgt_getD (tokens : List Int) (S t : Nat) (dr mo : Bool) (ht : 0 < t) (i : Nat)
    (hi : i < (concatenateAndGroupTexts tokens S (some t) dr mo).length) :
    (concatenateAndGroupTexts tokens S (some t) dr mo).getD i ⟨[], none⟩
      = cgtWindow tokens S t mo (i * t) := by
  rw [cgt_length tokens S t dr mo ht] at hi
  unfold concatenateAndGroupTexts cgtBegins
  rw [pyOrStride_pos t S ht]
  rw [List.getD_eq_getElem?_getD, List.getElem?_map, List.getElem?_map,
    List.getElem?_range hi]
  rfl

/-- C6: with `stride < seq_len` and `mask_stride_overlap` set, every window
emitted by `concatenate_and_group_texts` has its `input_ids` equal to the
raw (unmasked) slice, and every window after the first carries a `labels`
field whose first `seq_len - stride` positions all hold the sentinel
`-100`. -/
theorem mask_stride_overlap_windows (tokens : List Int) (S t : Nat) (dr : Bool)
    (ht : 0 < t) (hts : t < S) :
    ∀ i : Nat, i < (concatenateAndGroupTexts tokens S (some t) dr true).length →
      ((concatenateAndGroupTexts tokens S (some t) dr true).getD i ⟨[], none⟩).input_ids
          = (tokens.drop (i * t)).take S
      ∧ (0 < i →
          ∃ l : List Int,
            ((concatenateAndGroupTexts tokens S (some t) dr true).getD i ⟨[], none⟩).labels
              = some l
            ∧ ∀ j : Nat, j < S - t → l.getD j 0 = -100) := by
  intro i hi
  rw [cgt_getD tokens S t dr true ht i hi]
  have hslice := cgt_window_long tokens S t dr ht hts i hi
  have hcond : ((true : Bool) = true ∧ t ≠ S) := ⟨rfl, Nat.ne_of_lt hts⟩
  constructor
  · unfold cgtWindow
    rw [if_pos hcond]
  · intro hipos
    refine ⟨maskOverlap ((tokens.drop (i * t)).take S) S t (-100), ?_, ?_⟩
    · unfold cgtWindow
      rw [if_pos hcond]
      simp only
      rw [if_pos (Nat.mul_ne_zero (by omega) (by omega) : i * t ≠ 0)]
    · intro j hj
      unfold maskOverlap
      rw [List.getD_eq_getElem?_getD,
        List.getElem?_append_left (by
          rw [List.length_replicate]
          exact lt_min_iff.mpr ⟨hj, by omega⟩),
        List.getElem?_replicate]
      rw [if_pos (lt_min_iff.mpr ⟨hj, by omega⟩)]
      rfl

/-- Witness for C6 at a concrete stream: the second window of
`[0,1,2,3,4,5]` with `seq_len = 4`, `stride = 2` is `[2,3,4,5]` with its
first two labels masked. -/
theorem mask_stride_overlap_windows_witness :
    0 < 2 ∧ 2 < 4
    ∧ 1 < (concatenateAndGroupTexts [0, 1, 2, 3, 4, 5] 4 (some 2) false true).length
    ∧ (((concatenateAndGroupTexts [0, 1, 2, 3, 4, 5] 4 (some 2) false true).getD 1
          ⟨[], none⟩).input_ids
        = (([0, 1, 2, 3, 4, 5] : List Int).drop (1 * 2)).take 4
      ∧ (0 < 1 →
          ∃ l : List Int,
            ((concatenateAndGroupTexts [0, 1, 2, 3, 4, 5] 4 (some 2) false
                true).getD 1 ⟨[], none⟩).labels = some l
            ∧ ∀ j : Nat, j < 4 - 2 → l.getD j 0 = -100)) :=
  ⟨by decide, by decide, by decide,
   mask_stride_overlap_windows [0, 1, 2, 3, 4, 5] 4 2 false (by decide) (by decide) 1
     (by decide)⟩

theorem tokenSeq_windows_le (doc' : List Int) (S : Nat) :
    ∀ w ∈ (concatenateAndGroupTexts doc' S none false true).map Window.input_ids,
      w.length ≤ S := by
  intro w hw
  obtain ⟨win, hwin, rfl⟩ := List.mem_map.mp hw
  unfold concatenateAndGroupTexts at hwin
  obtain ⟨b, _, rfl⟩ := List.mem_map.mp hwin
  show (cgtWindow doc' S (pyOrStride none S) true b).input_ids.length ≤ S
  unfold cgtWindow
  split <;> simp

theorem tokenSeqScan_lengths (S : Nat) :
    ∀ (ws : List (List Int)) (extra : Option (List Int)),
      (∀ w ∈ ws, w.length ≤ S) →
      ∀ y ∈ (tokenSeqScan S ws extra).1, y.length = S := by
  intro ws
  induction ws with
  | nil => intro extra _ y hy; simp [tokenSeqScan] at hy
  | cons w ws ih =>
    intro extra hle y hy
    by_cases hw : w.length < S
    · rw [show tokenSeqScan S (w :: ws) extra = tokenSeqScan S ws (some w) from by
        simp [tokenSeqScan, hw]] at hy
      exact ih (some w) (fun x hx => hle x (by simp [hx])) y hy
    · rw [show tokenSeqScan S (w :: ws) extra
          = ((w :: (tokenSeqScan S ws none).1), (tokenSeqScan S ws none).2) from by
        simp [tokenSeqScan, hw]] at hy
      simp only [List.mem_cons] at hy
      rcases hy with h | h
      · subst h
        exact le_antisymm (hle y (by simp)) (by omega)
      · exact ih none (fun x hx => hle x (by simp [hx])) y h

theorem tokenSeqIter_lengths (S : Nat) :
    ∀ (docs : List (List Int)) (extra : Option (List Int)),
      ∀ w ∈ tokenSeqIter S extra docs, w.length = S := by
  intro docs
  induction docs with
  | nil => intro extra w hw; simp [tokenSeqIter] at hw
  | cons doc docs ih =>
    intro extra w hw
    unfold tokenSeqIter at hw
    rcases List.mem_append.mp hw with h | h
    · unfold tokenSeqStep at h
      exact tokenSeqScan_lengths S _ none (tokenSeq_windows_le _ S) w h
    · exact ih _ w h

theorem tokenSeqStep_small (S : Nat) (e doc : List Int)
    (h0 : 0 < (e ++ doc).length) (hlt : (e ++ doc).length < S) :
    tokenSeqStep S (some e) doc = ([], some (e ++ doc)) := by
  unfold tokenSeqStep
  have hwins : (concatenateAndGroupTexts (e ++ doc) S none false true).map
      Window.input_ids = [e ++ doc] := by
    unfold concatenateAndGroupTexts cgtBegins
    have hstride : pyOrStride none S = S := rfl
    rw [hstride]
    have htot : cgtTotal (e ++ doc).length S S false = ((e ++ doc).length : Int) := by
      simp [cgtTotal]
    rw [htot, show ((e ++ doc).length : Int) - S + S = ((e ++ doc).length : Int) from by
      ring, pyRangeCount_natCast]
    rw [show ((e ++ doc).length + S - 1) / S = 1 from
      Nat.div_eq_of_lt_le (by omega) (by omega)]
    rw [show List.range 1 = [0] from rfl]
    simp only [List.map_cons, List.map_nil]
    unfold cgtWindow
    rw [if_neg (by simp)]
    simp only
    rw [show 0 * S = 0 from Nat.zero_mul S, List.drop_zero,
      List.take_of_length_le (by omega)]
  rw [hwins]
  unfold tokenSeqScan
  rw [if_pos hlt]
  rfl

/-- C5: every array yielded by `TokenSeqDataset.__iter__` has length exactly
`seq_len`; a document whose tokens together with the carry-over total fewer
than `seq_len` (but more than zero) yields nothing by itself and is held
whole as the new carry-over, prepended to the next document; the final
remainder is dropped only because the document stream ends (`tokenSeqIter`
discards the carry at `[]`). -/
theorem tokenSeq_fixed_length (S : Nat) (_hS : 0 < S) (docs : List (List Int))
    (extra : Option (List Int)) :
    (∀ w ∈ tokenSeqIter S extra docs, w.length = S)
    ∧ (∀ (e doc : List Int), 0 < (e ++ doc).length → (e ++ doc).length < S →
        tokenSeqStep S (some e) doc = ([], some (e ++ doc))) :=
  ⟨tokenSeqIter_lengths S docs extra,
   fun e doc h0 hlt => tokenSeqStep_small S e doc h0 hlt⟩

/-- Witness for C5: over the documents `[1,2]` and `[3,4,5,6]` with
`seq_len = 3`, every yield has length 3, and a short document is carried. -/
theorem tokenSeq_fixed_length_witness :
    0 < 3
    ∧ (∀ w ∈ tokenSeqIter 3 none [[1, 2], [3, 4, 5, 6]], w.length = 3)
    ∧ (∀ (e doc : List Int), 0 < (e ++ doc).length → (e ++ doc).length < 3 →
        tokenSeqStep 3 (some e) doc = ([], some (e ++ doc))) :=
  ⟨by decide, (tokenSeq_fixed_length 3 (by decide) [[1, 2], [3, 4, 5, 6]] none).1,
   (tokenSeq_fixed_length 3 (by decide) [[1, 2], [3, 4, 5, 6]] none).2⟩

/-- Witness for C2 at a concrete stream with a partial final window. -/
theorem concatenate_roundtrip_witness :
    0 < 3
    ∧ (((concatenateAndGroupTexts [5, 6, 7, 8, 9, 10, 11] 3 (some 3) false true).map
          Window.input_ids).filter (fun w => w.length == 3)).flatten
      = ([5, 6, 7, 8, 9, 10, 11] : List Int).take
          (([5, 6, 7, 8, 9, 10, 11] : List Int).length / 3 * 3) :=
  ⟨by decide, concatenate_roundtrip [5, 6, 7, 8, 9, 10, 11] 3 true (by decide)⟩

end LevText
